import Mathlib

/-!
Verification of the crawler_app repository (single-domain asyncio web crawler).

The development shallowly embeds:
* the URL helpers of crawler_app/utils.py (normalize_url, get_domain_netloc,
  is_same_domain, fetch_page), which are built on CPython urllib.parse
  (urlsplit, urlparse, urljoin, quote); the relevant fragment of
  urllib.parse is modelled here as well;
* the link filter of crawler_app/parser.py (extract_links), with the
  BeautifulSoup anchor scan abstracted as an oracle producing href strings;
* the Crawler class of crawler_app/crawler.py: constructor validation and
  the cooperative-concurrency worker loop, the latter as a small-step
  transition system whose atomic blocks are the code regions between
  asyncio suspension points.

All definitions are translated from the source; divergences of the model
are noted in the doc comments of the definitions.
-/

namespace CrawlerApp

/-! ## Generic list and string helpers -/

/-- Bool test that a list is an infix of another (Python substring test
s1 in s2, used for the checks on the protocol separator and on the
content type). -/
def infixB (pat : List Char) : List Char → Bool
  | [] => pat.isEmpty
  | c :: t => pat.isPrefixOf (c :: t) || infixB pat t

/-- Python substring containment: pat in s. -/
def containsStr (s pat : String) : Bool := infixB pat.data s.data

/-- Python str.startswith. -/
def strStartsWith (s pat : String) : Bool := pat.data.isPrefixOf s.data

/-- The part of a list before the first occurrence of sep (the whole list
when sep does not occur): Python s.split(sep, 1)[0]. -/
def splitFirstOn (sep : List Char) : List Char → List Char
  | [] => []
  | c :: t => if sep.isPrefixOf (c :: t) then [] else c :: splitFirstOn sep t

/-- ASCII lower-casing of one character, as Python str.lower acts on the
ASCII range.  (Python also lowers non-ASCII letters; that can never turn a
string into http or https, the only outcomes the sources compare against,
so the restriction to ASCII is inessential.) -/
def pyLowerChar (c : Char) : Char :=
  if 65 ≤ c.toNat ∧ c.toNat ≤ 90 then Char.ofNat (c.toNat + 32) else c

/-- ASCII lower-casing of a string (Python str.lower). -/
def pyLower (l : List Char) : List Char := l.map pyLowerChar

/-- The ASCII whitespace characters Python str.strip() removes (str.strip
also removes the non-ASCII unicode spaces; none of the strings compared
against in the sources contains one, so the ASCII restriction is
inessential). -/
def isPySpace (c : Char) : Bool :=
  c = ' ' ∨ c = '\t' ∨ c = '\n' ∨ c = '\r' ∨ c = '\x0b' ∨ c = '\x0c'

/-- Python str.strip(): whitespace removed from both ends. -/
def pyStrip (s : String) : String :=
  ⟨((s.data.dropWhile isPySpace).reverse.dropWhile isPySpace).reverse⟩

/-! ## Model of the used fragment of CPython urllib.parse

Translated from CPython Lib/urllib/parse.py.  Strings are processed as
their character lists.  A raised ValueError is modelled as Except.error. -/

/-- Characters removed from a URL before parsing
(urllib.parse._UNSAFE_URL_BYTES_TO_REMOVE: tab, carriage return,
newline; CPython removes them with str.replace, which is the same as
filtering them out). -/
def rmUnsafe (l : List Char) : List Char :=
  l.filter fun c => ¬(c = '\t' ∨ c = '\r' ∨ c = '\n')

/-- urllib.parse.scheme_chars membership: ASCII letters, digits, plus,
minus, dot. -/
def isSchemeChar (c : Char) : Bool :=
  c.isAlpha || c.isDigit || c = '+' || c = '-' || c = '.'

/-- Scheme detection of urlsplit: the text before the first colon is taken
as the scheme (lower-cased) when the colon exists at a positive index, the
first character is an ASCII letter and every character before the colon is
a scheme character; otherwise the default scheme is kept and the URL is
unchanged. -/
def schemeSplit (dflt : List Char) (l : List Char) : List Char × List Char :=
  let pre := l.takeWhile (· ≠ ':')
  if pre.length < l.length ∧ pre ≠ [] ∧ (pre.headD ' ').isAlpha ∧ pre.all isSchemeChar
  then (pyLower pre, l.drop (pre.length + 1))
  else (dflt, l)

/-- urllib.parse._splitnetloc delimiters: slash, question mark, hash. -/
def isNetlocDelim (c : Char) : Bool := c = '/' || c = '?' || c = '#'

/-- The result record of urlsplit (params of urlparse handled separately). -/
structure SplitResult where
  scheme : List Char
  netloc : List Char
  path : List Char
  query : List Char
  fragment : List Char
deriving Repr, DecidableEq

/-- Model of urllib.parse.urlsplit with allow_fragments=True.  Returns
Except.error where CPython raises ValueError (mismatched square brackets
in the netloc; the stricter bracketed-host validation of newer CPython is
not modelled — it only rejects additional bracketed netlocs, and every
use in this development treats any error identically). -/
def urlsplitE (dflt : List Char) (url : List Char) : Except Unit SplitResult :=
  let u0 := rmUnsafe url
  let scheme := (schemeSplit dflt u0).1
  let u1 := (schemeSplit dflt u0).2
  let netloc :=
    if u1.take 2 = ['/', '/'] then (u1.drop 2).takeWhile (fun c => ¬ isNetlocDelim c)
    else []
  let u2 :=
    if u1.take 2 = ['/', '/'] then (u1.drop 2).dropWhile (fun c => ¬ isNetlocDelim c)
    else u1
  if (netloc.contains '[' && !netloc.contains ']') ||
     (netloc.contains ']' && !netloc.contains '[') then
    .error ()
  else
    let u3 := u2.takeWhile (· ≠ '#')
    let fragment := (u2.dropWhile (· ≠ '#')).drop 1
    let path := u3.takeWhile (· ≠ '?')
    let query := (u3.dropWhile (· ≠ '?')).drop 1
    .ok ⟨scheme, netloc, path, query, fragment⟩

/-- urllib.parse.uses_params (schemes whose path may carry params). -/
def uses_params : List (List Char) :=
  ["".data, "ftp".data, "hdl".data, "prospero".data, "http".data, "imap".data,
   "https".data, "shttp".data, "rtsp".data, "rtspu".data, "sip".data,
   "sips".data, "mms".data, "sftp".data, "tel".data]

/-- urllib.parse._splitparams: the path params are the text after the
first semicolon of the last path segment. -/
def splitParams (path : List Char) : List Char × List Char :=
  let seg := if path.contains '/' then
    -- url.find(';', url.rfind('/')): search from the last slash
    ((path.reverse.takeWhile (· ≠ '/')).reverse)
  else path
  if seg.contains ';' then
    let keep := path.length - ((seg.dropWhile (· ≠ ';')).length)
    (path.take keep, path.drop (keep + 1))
  else (path, [])

/-- The result record of urlparse. -/
structure ParseResult where
  scheme : List Char
  netloc : List Char
  path : List Char
  params : List Char
  query : List Char
  fragment : List Char
deriving Repr, DecidableEq

/-- Model of urllib.parse.urlparse with allow_fragments=True. -/
def urlparseE (dflt : List Char) (url : List Char) : Except Unit ParseResult := do
  let s ← urlsplitE dflt url
  if s.path.contains ';' ∧ uses_params.contains s.scheme then
    return ⟨s.scheme, s.netloc, (splitParams s.path).1, (splitParams s.path).2,
      s.query, s.fragment⟩
  else
    return ⟨s.scheme, s.netloc, s.path, [], s.query, s.fragment⟩

/-- urllib.parse.uses_relative. -/
def uses_relative : List (List Char) :=
  ["".data, "ftp".data, "http".data, "gopher".data, "nntp".data, "imap".data,
   "wais".data, "file".data, "https".data, "shttp".data, "mms".data,
   "prospero".data, "rtsp".data, "rtspu".data, "sftp".data, "svn".data,
   "svn+ssh".data, "ws".data, "wss".data]

/-- urllib.parse.uses_netloc. -/
def uses_netloc : List (List Char) :=
  ["".data, "ftp".data, "http".data, "gopher".data, "nntp".data, "telnet".data,
   "imap".data, "wais".data, "file".data, "mms".data, "https".data,
   "shttp".data, "snews".data, "prospero".data, "rtsp".data, "rtspu".data,
   "rsync".data, "svn".data, "svn+ssh".data, "sftp".data, "nfs".data,
   "git".data, "git+ssh".data, "ws".data, "wss".data, "itms-services".data]

/-- urllib.parse.urlunsplit. -/
def urlunsplit (scheme netloc path query fragment : List Char) : List Char :=
  let u1 :=
    if netloc ≠ [] ∨ (path ≠ [] ∧ path.take 2 = ['/', '/']) then
      let p := if path ≠ [] ∧ path.take 1 ≠ ['/'] then '/' :: path else path
      '/' :: '/' :: (netloc ++ p)
    else path
  let u2 := if scheme ≠ [] then scheme ++ ':' :: u1 else u1
  let u3 := if query ≠ [] then u2 ++ '?' :: query else u2
  if fragment ≠ [] then u3 ++ '#' :: fragment else u3

/-- urllib.parse.urlunparse (params appended to the path after a
semicolon when present). -/
def urlunparse (r : ParseResult) : List Char :=
  let p := if r.params ≠ [] then r.path ++ ';' :: r.params else r.path
  urlunsplit r.scheme r.netloc p r.query r.fragment

/-- One step of the segment resolution loop of urljoin: double dot pops,
single dot is skipped, anything else is appended. -/
def resolveSegs : List (List Char) → List (List Char) → List (List Char)
  | acc, [] => acc
  | acc, seg :: rest =>
    if seg = "..".data then resolveSegs (acc.dropLast) rest
    else if seg = ".".data then resolveSegs acc rest
    else resolveSegs (acc ++ [seg]) rest

/-- Intersperse the segments with slashes: Python "/".join. -/
def joinSlash : List (List Char) → List Char
  | [] => []
  | [s] => s
  | s :: rest => s ++ '/' :: joinSlash rest

/-- Split a list at every occurrence of a character: Python str.split(c)
(always at least one part). -/
def splitOnChar (c : Char) (l : List Char) : List (List Char) :=
  match l with
  | [] => [[]]
  | a :: t =>
    let r := splitOnChar c t
    if a = c then [] :: r
    else match r with
      | [] => [[a]]
      | h :: t2 => (a :: h) :: t2

/-- The main body of urljoin once both parses succeeded: either an early
exit (different scheme, or an absolute URL with its own netloc), the
empty-path inheritance case, or the segment resolution loop. -/
def urljoinCore (b p : ParseResult) (url : List Char) : List Char :=
  if p.scheme ≠ b.scheme ∨ ¬ uses_relative.contains p.scheme then url
  else if uses_netloc.contains p.scheme ∧ p.netloc ≠ [] then urlunparse p
  else
    let netloc := if uses_netloc.contains p.scheme then b.netloc else p.netloc
    if p.path = [] ∧ p.params = [] then
      let query := if p.query = [] then b.query else p.query
      urlunparse ⟨p.scheme, netloc, b.path, b.params, query, p.fragment⟩
    else
      let baseParts0 := splitOnChar '/' b.path
      let baseParts := if baseParts0.getLast? ≠ some [] then baseParts0.dropLast else baseParts0
      let segments :=
        if p.path.take 1 = ['/'] then splitOnChar '/' p.path
        else
          let s := baseParts ++ splitOnChar '/' p.path
          -- segments[1:-1] = filter(None, segments[1:-1])
          match s with
          | [] => []
          | h :: t => h :: ((t.dropLast.filter (· ≠ [])) ++ t.getLast?.toList)
      let resolved0 := resolveSegs [] segments
      let resolved :=
        if segments.getLast? = some ".".data ∨ segments.getLast? = some "..".data then
          resolved0 ++ [[]]
        else resolved0
      let rp := joinSlash resolved
      urlunparse ⟨p.scheme, netloc, if rp = [] then ['/'] else rp, p.params, p.query, p.fragment⟩

/-- Model of urllib.parse.urljoin (allow_fragments=True), translated from
CPython Lib/urllib/parse.py. -/
def urljoinE (base url : List Char) : Except Unit (List Char) :=
  if base = [] then .ok url
  else if url = [] then .ok base
  else
    match urlparseE [] base with
    | .error e => .error e
    | .ok b =>
      match urlparseE b.scheme url with
      | .error e => .error e
      | .ok p => .ok (urljoinCore b p url)

/-! ## Model of urllib.parse.quote with the default safe set -/

/-- UTF-8 encoding of one character as its byte values. -/
def utf8Bytes (c : Char) : List Nat :=
  let n := c.toNat
  if n < 128 then [n]
  else if n < 2048 then [192 + n / 64, 128 + n % 64]
  else if n < 65536 then [224 + n / 4096, 128 + (n / 64) % 64, 128 + n % 64]
  else [240 + n / 262144, 128 + (n / 4096) % 64, 128 + (n / 64) % 64, 128 + n % 64]

/-- The bytes urllib.parse.quote leaves unescaped with the default
safe="/": ASCII letters, digits, underscore, dot, minus, tilde, slash. -/
def isQuoteSafe (n : Nat) : Bool :=
  (65 ≤ n && n ≤ 90) || (97 ≤ n && n ≤ 122) || (48 ≤ n && n ≤ 57) ||
  n = 95 || n = 46 || n = 45 || n = 126 || n = 47

/-- Upper-case hexadecimal digit. -/
def hexDig (n : Nat) : Char := "0123456789ABCDEF".data.getD n '0'

/-- Percent-escape of one character: kept verbatim when it is a single
safe byte, otherwise every UTF-8 byte becomes a percent escape (a
non-ASCII character has only bytes at 128 or above, none of which is
safe, so escaping all of its bytes agrees with the per-byte CPython
loop). -/
def quoteChar (c : Char) : List Char :=
  if c.toNat < 128 ∧ isQuoteSafe c.toNat then [c]
  else (utf8Bytes c).foldr (fun b acc => '%' :: hexDig (b / 16) :: hexDig (b % 16) :: acc) []

/-- Model of urllib.parse.quote(s) (safe="/"): the UTF-8 bytes of the
string, with every unsafe byte percent-escaped in upper-case hex. -/
def pyQuote (l : List Char) : List Char := l.foldr (fun c acc => quoteChar c ++ acc) []

/-! ## crawler_app/utils.py -/

/-- The f-string of utils.normalize_url: scheme, the :// separator, the
netloc, the quoted path and the query as given (fragment and params
dropped). -/
def rebuildUrl (p : ParseResult) : String :=
  ⟨p.scheme ++ ':' :: '/' :: '/' :: (p.netloc ++ pyQuote p.path ++
    (if p.query ≠ [] then '?' :: p.query else []))⟩

/-- The re-parse and rebuild stage of utils.normalize_url. -/
def normalizeParse (abs_url : List Char) : String :=
  match urlparseE [] abs_url with
  | .error _ => ""
  | .ok p => rebuildUrl p

/-- utils.normalize_url: strip the URL, resolve it against the base URL,
re-parse, and rebuild via rebuildUrl; any ValueError gives the empty
string. -/
def normalize_url (url base_url : String) : String :=
  match urljoinE base_url.data (pyStrip url).data with
  | .error _ => ""
  | .ok abs_url => normalizeParse abs_url

/-- utils.get_domain_netloc: the netloc of the parsed URL, empty string on
a ValueError. -/
def get_domain_netloc (url : String) : String :=
  match urlparseE [] url.data with
  | .error _ => ""
  | .ok p => ⟨p.netloc⟩

/-- utils.is_same_domain: false for an empty base netloc, a ValueError,
or a scheme other than http or https; true when the netloc is the base
netloc with the default port of the scheme appended; otherwise the exact
string comparison of the netlocs. -/
def is_same_domain (url : String) (base_domain_netloc : String) : Bool :=
  if base_domain_netloc = "" then false
  else
    match urlparseE [] url.data with
    | .error _ => false
    | .ok p =>
      if ¬(p.scheme = "http".data ∨ p.scheme = "https".data) then false
      else if (p.netloc = base_domain_netloc.data ++ ":80".data ∧ p.scheme = "http".data) ∨
              (p.netloc = base_domain_netloc.data ++ ":443".data ∧ p.scheme = "https".data) then true
      else p.netloc = base_domain_netloc.data

/-- The outcome of the transport layer for one GET, abstracting the httpx
client: either a response (status code, content-type header with the
empty string for an absent header, body text), a request error
(httpx.TimeoutException or httpx.RequestError), or any other exception. -/
inductive FetchOutcome where
  /-- A response: status code, content-type header (empty string for an
  absent header), body text, and the final URL of the response after the
  redirect chain (available as response.url on the httpx response, since
  the client is built with follow_redirects=True, but never consulted by
  fetch_page). -/
  | success (statusCode : Nat) (contentType : String) (text : String) (finalUrl : String)
  | requestError
  | otherError
deriving Repr, DecidableEq

/-- constants.HTTP_SUPPORTED_SUCCESS_CODES. -/
def HTTP_SUPPORTED_SUCCESS_CODES : List Nat := [200]

/-- utils.fetch_page given the transport outcome for the requested URL:
every branch of the source returns the INPUT url as the first component
(the final URL of the response after redirects is never consulted), and
the body only for status 200 with a content type containing text/html. -/
def fetch_page (url : String) (outcome : FetchOutcome) : String × Option String :=
  match outcome with
  | .requestError => (url, none)
  | .otherError => (url, none)
  | .success statusCode contentType text _ =>
    if ¬ HTTP_SUPPORTED_SUCCESS_CODES.contains statusCode then (url, none)
    else if ¬ containsStr ⟨pyLower contentType.data⟩ "text/html" then (url, none)
    else (url, some text)

/-! ## crawler_app/parser.py -/

/-- constants.SUPPORTED_PROTOCOLS. -/
def SUPPORTED_PROTOCOLS : List String := ["http", "https"]

/-- The body of the per-anchor loop of parser.extract_links for one href
attribute value, acting on the accumulated link set (a list without
duplicates, since Python set.add ignores members).  A ValueError raised
by urlparse propagates (the source has no per-anchor handler, so it
aborts the whole extraction). -/
def processHref (base_url : String) (links : List String) (h0 : String) :
    Except Unit (List String) :=
  if pyStrip h0 = "" ∨ strStartsWith (pyStrip h0) "#" ∨ strStartsWith (pyStrip h0) "javascript:"
  then .ok links
  else
    match urlparseE [] (pyStrip h0).data with
    | .error e => .error e
    | .ok parsed_href =>
      if parsed_href.scheme ≠ [] ∧
          ¬ SUPPORTED_PROTOCOLS.contains ⟨pyLower parsed_href.scheme⟩ then .ok links
      else if normalize_url (pyStrip h0) base_url ≠ "" then
        match urlparseE [] (normalize_url (pyStrip h0) base_url).data with
        | .error e => .error e
        | .ok parsed_normalized =>
          if SUPPORTED_PROTOCOLS.contains (⟨parsed_normalized.scheme⟩ : String) then
            .ok (if links.contains (normalize_url (pyStrip h0) base_url) then links
                 else links ++ [normalize_url (pyStrip h0) base_url])
          else .ok links
      else .ok links

/-- parser.extract_links, with the BeautifulSoup anchor scan abstracted
as the oracle findHrefs giving the href attribute values of the anchors
in document order (Except.error for a parser exception).  Empty HTML
gives the empty set; any exception inside the try block gives the empty
set. -/
def extract_links (findHrefs : String → Except Unit (List String))
    (html_content base_url : String) : List String :=
  if html_content = "" then []
  else
    match findHrefs html_content >>= fun hrefs => hrefs.foldlM (processHref base_url) [] with
    | .error _ => []
    | .ok links => links

/-! ## crawler_app/crawler.py: constructor validation -/

/-- The closed fault taxonomy of exceptions.py raised by Crawler.__init__
(MissingProtocolError, InvalidProtocolError, InvalidURLError). -/
inductive CrawlerFault where
  | missingProtocol
  | unsupportedProtocol
  | invalidURL
deriving Repr, DecidableEq

/-- The validated immutable data Crawler.__init__ computes on success. -/
structure InitData where
  base_url : String
  base_domain_netloc : String
deriving Repr, DecidableEq

/-- The validation part of Crawler.__init__: raise MissingProtocolError
without the :// separator; raise InvalidProtocolError when the
lower-cased text before the first :// is not a supported protocol;
normalize the base URL against itself and raise InvalidURLError when its
netloc is empty; otherwise succeed with the normalized URL and its
netloc (no fetching or link processing happens during construction). -/
def crawlerInitE (base_url : String) : Except CrawlerFault InitData :=
  if ¬ containsStr base_url "://" then .error .missingProtocol
  else
    let protocol : String := ⟨pyLower (splitFirstOn "://".data base_url.data)⟩
    if ¬ SUPPORTED_PROTOCOLS.contains protocol then .error .unsupportedProtocol
    else
      let b := normalize_url base_url base_url
      let netloc := get_domain_netloc b
      if netloc = "" then .error .invalidURL
      else .ok ⟨b, netloc⟩

/-! ## crawler_app/crawler.py: the worker loop as a transition system

crawl() spawns concurrency copies of the _worker coroutine on one asyncio
event loop.  Scheduling is cooperative: the code between two suspension
points runs atomically.  The suspension points of _worker are the queue
get, the semaphore acquire, the fetch, and the queue put.  The model
below makes every such region its own atomic step and additionally splits
_process_links into one step per link, which only enlarges the set of
interleavings (every invariant proved over all schedules of the model
therefore covers the real event loop).  The semaphore only restricts
which schedules occur, so it is sound to omit it for invariants proved
over all schedules.  Worker cancellation only stops workers without
touching the shared state and is omitted likewise.

The fetch and the link extraction are the external collaborators; the
model takes them as oracles.  fetchHtml u models the second component of
fetch_page(u): per utils.fetch_page every return statement yields the
requested URL itself as first component, so the fetched_url bound in
_worker line 190 is the popped url and is not modelled separately.
A returned empty string is falsy in Python, so the worker treats it like
an absent body. -/

/-- The program counter of one worker coroutine between suspension
points. -/
inductive WStatus where
  /-- At the top of the while loop, about to test the page budget. -/
  | atLoopTop
  /-- Passed the budget test, blocked on or about to await queue.get(). -/
  | waitingGet
  /-- Holding a popped url, fetch in flight. -/
  | fetching (url : String)
  /-- Fetched a truthy body, recorded the results entry, now inside
  _process_links with the given links still to examine. -/
  | processing (rem : List String)
  /-- Left the while loop (budget break or cancellation). -/
  | stopped
deriving Repr, DecidableEq

/-- An association-list update, modelling the Python dict assignment
found_links_map[k] = v. -/
def insertAssoc (k : String) (v : List String) :
    List (String × List String) → List (String × List String)
  | [] => [(k, v)]
  | (k1, v1) :: rest => if k1 = k then (k, v) :: rest else (k1, v1) :: insertAssoc k v rest

/-- The per-crawl configuration together with the environment oracles. -/
structure Config where
  /-- self.base_domain_netloc. -/
  baseHost : String
  /-- self.max_pages. -/
  maxPages : Nat
  /-- self.concurrency, the number of spawned workers. -/
  numWorkers : Nat
  /-- The second component of fetch_page for each URL (none for an
  absent body). -/
  fetchHtml : String → Option String
  /-- extract_links on a body and the fetched URL, as the list of
  elements of the returned set. -/
  extract : String → String → List String

/-- The shared mutable state of a crawl plus the worker program counters
and, as history variables, the join counter of the asyncio queue and the
log of every queue push. -/
structure CrawlState where
  /-- self.urls_to_visit, front of the list popped first. -/
  queue : List String
  /-- self.visited_urls. -/
  visited : List String
  /-- self.found_links_map. -/
  results : List (String × List String)
  /-- One status per spawned worker task. -/
  workers : List WStatus
  /-- The unfinished-task counter of the asyncio queue: incremented by
  each put, decremented by each task_done; join() releases at zero. -/
  unfinished : Nat
  /-- History: every URL ever put on the queue, oldest first. -/
  pushedLog : List String

/-- The state after Crawler.__init__ and the task spawning at the start
of crawl(): the seed is on the queue (one unfinished item), in the
visited set and in the push log, and every worker is at the top of its
loop. -/
def initState (seed : String) (n : Nat) : CrawlState :=
  { queue := [seed], visited := [seed], results := [],
    workers := List.replicate n .atLoopTop, unfinished := 1, pushedLog := [seed] }

/-- One atomic step of one worker.  Each constructor is one region of
_worker, _empty_queue or _process_links between suspension points. -/
inductive Step (cfg : Config) : CrawlState → CrawlState → Prop where
  /-- Budget test false (len(found_links_map) < max_pages): proceed to
  the queue get. -/
  | budgetPass (s : CrawlState) (i : Nat)
      (hw : s.workers[i]? = some .atLoopTop)
      (hres : s.results.length < cfg.maxPages) :
      Step cfg s { s with workers := s.workers.set i .waitingGet }
  /-- Budget test true: _empty_queue pops every queued item and marks it
  done, then the worker breaks out of its loop. -/
  | budgetHit (s : CrawlState) (i : Nat)
      (hw : s.workers[i]? = some .atLoopTop)
      (hres : cfg.maxPages ≤ s.results.length) :
      Step cfg s { s with queue := [],
                          unfinished := s.unfinished - s.queue.length,
                          workers := s.workers.set i .stopped }
  /-- queue.get() returns the front URL. -/
  | getUrl (s : CrawlState) (i : Nat) (u : String) (rest : List String)
      (hw : s.workers[i]? = some .waitingGet)
      (hq : s.queue = u :: rest) :
      Step cfg s { s with queue := rest, workers := s.workers.set i (.fetching u) }
  /-- fetch_page returned an absent or empty body: skip, task_done, back
  to the loop top. -/
  | fetchFail (s : CrawlState) (i : Nat) (u : String)
      (hw : s.workers[i]? = some (.fetching u))
      (hf : cfg.fetchHtml u = none ∨ cfg.fetchHtml u = some "") :
      Step cfg s { s with workers := s.workers.set i .atLoopTop,
                          unfinished := s.unfinished - 1 }
  /-- fetch_page returned a truthy body: extract_links runs and the
  results entry for the fetched URL (= the popped URL, see above) is
  written, all before the next suspension point. -/
  | fetchOk (s : CrawlState) (i : Nat) (u h : String)
      (hw : s.workers[i]? = some (.fetching u))
      (hf : cfg.fetchHtml u = some h) (hne : h ≠ "") :
      Step cfg s { s with results := insertAssoc u (cfg.extract h u) s.results,
                          workers := s.workers.set i (.processing (cfg.extract h u)) }
  /-- _process_links: the current link fails the same-domain test or is
  already visited, so it is dropped. -/
  | procSkip (s : CrawlState) (i : Nat) (l : String) (rest : List String)
      (hw : s.workers[i]? = some (.processing (l :: rest)))
      (hcond : ¬(is_same_domain l cfg.baseHost = true ∧ l ∉ s.visited)) :
      Step cfg s { s with workers := s.workers.set i (.processing rest) }
  /-- _process_links: a same-domain unseen link is added to the visited
  set and pushed, in this order and atomically (lines 249-252 have no
  suspension point between the membership test and the set insert). -/
  | procPush (s : CrawlState) (i : Nat) (l : String) (rest : List String)
      (hw : s.workers[i]? = some (.processing (l :: rest)))
      (hdom : is_same_domain l cfg.baseHost = true)
      (hnew : l ∉ s.visited) :
      Step cfg s { s with visited := l :: s.visited,
                          queue := s.queue ++ [l],
                          unfinished := s.unfinished + 1,
                          pushedLog := s.pushedLog ++ [l],
                          workers := s.workers.set i (.processing rest) }
  /-- _process_links finished: task_done, back to the loop top. -/
  | procDone (s : CrawlState) (i : Nat)
      (hw : s.workers[i]? = some (.processing []))
      : Step cfg s { s with workers := s.workers.set i .atLoopTop,
                            unfinished := s.unfinished - 1 }

/-- The states a crawl from the given seed can reach under some
scheduling of the workers. -/
inductive Reachable (cfg : Config) (seed : String) : CrawlState → Prop where
  | init : Reachable cfg seed (initState seed cfg.numWorkers)
  | step {s t : CrawlState} : Reachable cfg seed s → Step cfg s t → Reachable cfg seed t

/-! ## Invariants of the transition system -/

/-- A worker is in flight when it has passed the budget test of the
current loop iteration but has not yet written its results entry. -/
def isInflight : WStatus → Bool
  | .waitingGet => true
  | .fetching _ => true
  | _ => false

/-- The number of in-flight workers. -/
def inflightCount (ws : List WStatus) : Nat := ws.countP isInflight

/-- The inductive invariant of the crawl.  queue_sub, pushed_visited and
pushed_nodup give the dedup discipline (a pushed URL is in the visited
set from the moment of the push on, and no URL is ever pushed twice);
visited_host confines the frontier to the seed and same-domain URLs;
results_keys ties the result keys to the visited set; budget bounds the
size of the results map by the page budget plus the in-flight workers. -/
structure CrawlInv (cfg : Config) (seed : String) (s : CrawlState) : Prop where
  queue_sub : ∀ u ∈ s.queue, u ∈ s.pushedLog
  pushed_visited : ∀ u ∈ s.pushedLog, u ∈ s.visited
  pushed_nodup : s.pushedLog.Nodup
  visited_host : ∀ u ∈ s.visited, u = seed ∨ is_same_domain u cfg.baseHost = true
  results_keys : ∀ q ∈ s.results, q.1 ∈ s.visited
  fetching_visited : ∀ (i : Nat) (u : String),
    s.workers[i]? = some (WStatus.fetching u) → u ∈ s.visited
  workers_len : s.workers.length = cfg.numWorkers
  budget : s.results.length + inflightCount s.workers ≤ cfg.maxPages - 1 + cfg.numWorkers


/-! ## Definitions used only in the statements of the claims -/

/-- isSameHost as worded by the spec (section 4.1): false if baseHost is
empty, the scheme of the url is not http or https, or the url is
unparseable; otherwise true exactly when the authority of the url equals
baseHost byte-exactly, or equals baseHost with :80 appended under scheme
http, or equals baseHost with :443 appended under scheme https. -/
def isSameHostSpec (url base : String) : Bool :=
  if base = "" then false
  else
    match urlparseE [] url.data with
    | .error _ => false
    | .ok p =>
      (decide (p.scheme = "http".data) || decide (p.scheme = "https".data)) &&
      (decide (p.netloc = base.data) ||
        (decide (p.netloc = base.data ++ ":80".data) && decide (p.scheme = "http".data)) ||
        (decide (p.netloc = base.data ++ ":443".data) && decide (p.scheme = "https".data)))

/-- Statement helper: the string parses and its scheme is a supported
protocol (the guarantee extract_links gives for every returned link). -/
def supportedSchemeB (l : String) : Bool :=
  match urlparseE [] l.data with
  | .ok p => SUPPORTED_PROTOCOLS.contains (⟨p.scheme⟩ : String)
  | .error _ => false

/-- The invariant of a crawl whose seed URL never yields a body: nothing
beyond the seed is ever discovered and no results entry is ever
written. -/
structure SeedFailInv (seed : String) (s : CrawlState) : Prop where
  results_empty : s.results = []
  visited_seed : s.visited = [seed]
  queue_seed : ∀ u ∈ s.queue, u = seed
  fetching_seed : ∀ (i : Nat) (u : String),
    s.workers[i]? = some (WStatus.fetching u) → u = seed
  no_processing : ∀ (i : Nat) (l : List String),
    s.workers[i]? ≠ some (WStatus.processing l)

/-- A concrete configuration whose fetches all fail: one worker, budget
ten, empty web. -/
def cfgNoSeed : Config :=
  { baseHost := "example.com", maxPages := 10, numWorkers := 1,
    fetchHtml := fun _ => none, extract := fun _ _ => [] }

/-- A concrete two-worker configuration with page budget one over a
two-page site: the seed page links to page p1 and both pages fetch
successfully.  Used to exhibit the budget overshoot. -/
def cfgOver : Config :=
  { baseHost := "example.com", maxPages := 1, numWorkers := 2,
    fetchHtml := fun u =>
      if u = "http://example.com" then some "H0"
      else if u = "http://example.com/p1" then some "H1"
      else none,
    extract := fun h _ => if h = "H0" then ["http://example.com/p1"] else [] }

theorem getElem?_set_cases {α : Type} (l : List α) (i j : Nat) (a : α) :
    (l.set i a)[j]? = if i = j ∧ j < l.length then some a else l[j]? := by
  induction l generalizing i j with
  | nil => simp
  | cons b t ih =>
    cases i with
    | zero =>
      cases j with
      | zero => simp
      | succ j => simp [List.set]
    | succ i =>
      cases j with
      | zero => simp [List.set]
      | succ j =>
        simp only [List.set, List.getElem?_cons_succ, ih i j, List.length_cons]
        by_cases h : i = j ∧ j < t.length
        · simp [h, h.1, Nat.succ_lt_succ h.2]
        · have : ¬(i + 1 = j + 1 ∧ j + 1 < t.length + 1) := by
            intro hc
            exact h ⟨Nat.succ_injective hc.1, Nat.lt_of_succ_lt_succ hc.2⟩
          simp [h, this]

theorem countP_set {α : Type} (p : α → Bool) (l : List α) (i : Nat) (w w' : α)
    (h : l[i]? = some w) :
    (l.set i w').countP p + (if p w then 1 else 0) =
      l.countP p + (if p w' then 1 else 0) := by
  induction l generalizing i with
  | nil => simp at h
  | cons b t ih =>
    cases i with
    | zero =>
      simp only [List.getElem?_cons_zero, Option.some.injEq] at h
      subst h
      simp [List.set, List.countP_cons]
      omega
    | succ i =>
      simp only [List.getElem?_cons_succ] at h
      simp only [List.set, List.countP_cons]
      have := ih i h
      omega

theorem mem_of_getElem?_own {α : Type} {l : List α} {i : Nat} {a : α}
    (h : l[i]? = some a) : a ∈ l := by
  induction l generalizing i with
  | nil => simp at h
  | cons b t ih =>
    cases i with
    | zero => simp at h; simp [h]
    | succ i =>
      simp only [List.getElem?_cons_succ] at h
      exact List.mem_cons_of_mem _ (ih h)

theorem countP_pos_of_getElem? {α : Type} (p : α → Bool) (l : List α) (i : Nat) (w : α)
    (h : l[i]? = some w) (hp : p w = true) : 1 ≤ l.countP p := by
  have hm : w ∈ l := mem_of_getElem?_own h
  have := (List.countP_pos_iff (p := p) (l := l)).mpr ⟨w, hm, hp⟩
  omega

theorem countP_lt_length_of_getElem? {α : Type} (p : α → Bool) (l : List α) (i : Nat) (w : α)
    (h : l[i]? = some w) (hp : p w = false) : l.countP p < l.length := by
  have hm : w ∈ l := mem_of_getElem?_own h
  have hle : l.countP p ≤ l.length := List.countP_le_length p
  rcases Nat.lt_or_ge (l.countP p) l.length with hlt | hge
  · exact hlt
  · exfalso
    have heq : l.countP p = l.length := Nat.le_antisymm hle hge
    have := (List.countP_eq_length (p := p) (l := l)).mp heq w hm
    simp [hp] at this

theorem mem_insertAssoc (k : String) (v : List String)
    (l : List (String × List String)) (q : String × List String)
    (h : q ∈ insertAssoc k v l) : q = (k, v) ∨ q ∈ l := by
  induction l with
  | nil => simp [insertAssoc] at h; simp [h]
  | cons b t ih =>
    simp only [insertAssoc] at h
    by_cases hk : b.1 = k
    · simp [hk] at h
      rcases h with h | h
      · exact Or.inl (by simp [h])
      · exact Or.inr (List.mem_cons_of_mem _ h)
    · simp [hk] at h
      rcases h with h | h
      · exact Or.inr (by simp [h])
      · rcases ih h with h1 | h1
        · exact Or.inl h1
        · exact Or.inr (List.mem_cons_of_mem _ h1)

theorem length_insertAssoc (k : String) (v : List String)
    (l : List (String × List String)) :
    (insertAssoc k v l).length ≤ l.length + 1 := by
  induction l with
  | nil => simp [insertAssoc]
  | cons b t ih =>
    simp only [insertAssoc]
    by_cases hk : b.1 = k
    · simp [hk]
    · simp [hk]
      omega


theorem countP_replicate_own {α : Type} (p : α → Bool) (a : α) (n : Nat) :
    (List.replicate n a).countP p = if p a then n else 0 := by
  induction n with
  | zero => simp
  | succ n ih =>
    simp only [List.replicate_succ, List.countP_cons, ih]
    by_cases h : p a <;> simp [h]

theorem inv_init (cfg : Config) (seed : String) :
    CrawlInv cfg seed (initState seed cfg.numWorkers) := by
  refine ⟨?_, ?_, ?_, ?_, ?_, ?_, ?_, ?_⟩
  · intro u hu; simpa [initState] using hu
  · intro u hu; simpa [initState] using hu
  · simp [initState]
  · intro u hu
    simp [initState] at hu
    exact Or.inl hu
  · intro q hq; simp [initState] at hq
  · intro i u h
    simp only [initState] at h
    rcases Nat.lt_or_ge i cfg.numWorkers with hi | hi
    · rw [List.getElem?_eq_getElem (by simpa using hi)] at h
      simp at h
    · rw [List.getElem?_eq_none (by simpa using hi)] at h
      simp at h
  · simp [initState]
  · simp [initState, inflightCount, countP_replicate_own, isInflight]

theorem inv_step {cfg : Config} {seed : String} {s t : CrawlState}
    (hinv : CrawlInv cfg seed s) (hstep : Step cfg s t) : CrawlInv cfg seed t := by
  cases hstep with
  | budgetPass i hw hres =>
    refine ⟨hinv.queue_sub, hinv.pushed_visited, hinv.pushed_nodup, hinv.visited_host,
      hinv.results_keys, ?_, ?_, ?_⟩
    · intro j u hj
      rw [getElem?_set_cases] at hj
      split at hj
      · simp at hj
      · exact hinv.fetching_visited j u hj
    · simpa using hinv.workers_len
    · have hcount := countP_set isInflight s.workers i _ .waitingGet hw
      have hlt := countP_lt_length_of_getElem? isInflight s.workers i _ hw (by rfl)
      have hb := hinv.budget
      have hlen := hinv.workers_len
      simp [isInflight] at hcount
      simp only [inflightCount] at hb ⊢
      omega
  | budgetHit i hw hres =>
    refine ⟨?_, hinv.pushed_visited, hinv.pushed_nodup, hinv.visited_host,
      hinv.results_keys, ?_, ?_, ?_⟩
    · intro u hu; simp at hu
    · intro j u hj
      rw [getElem?_set_cases] at hj
      split at hj
      · simp at hj
      · exact hinv.fetching_visited j u hj
    · simpa using hinv.workers_len
    · have hcount := countP_set isInflight s.workers i _ .stopped hw
      have hb := hinv.budget
      simp [isInflight] at hcount
      simp only [inflightCount] at hb ⊢
      omega
  | getUrl i u rest hw hq =>
    refine ⟨?_, hinv.pushed_visited, hinv.pushed_nodup, hinv.visited_host,
      hinv.results_keys, ?_, ?_, ?_⟩
    · intro v hv
      exact hinv.queue_sub v (by simp [hq, hv])
    · intro j v hj
      rw [getElem?_set_cases] at hj
      split at hj
      · simp only [Option.some.injEq, WStatus.fetching.injEq] at hj
        subst hj
        exact hinv.pushed_visited u (hinv.queue_sub u (by simp [hq]))
      · exact hinv.fetching_visited j v hj
    · simpa using hinv.workers_len
    · have hcount := countP_set isInflight s.workers i _ (.fetching u) hw
      have hb := hinv.budget
      simp only [isInflight, if_true] at hcount
      simp only [inflightCount] at hb ⊢
      omega
  | fetchFail i u hw hf =>
    refine ⟨hinv.queue_sub, hinv.pushed_visited, hinv.pushed_nodup, hinv.visited_host,
      hinv.results_keys, ?_, ?_, ?_⟩
    · intro j v hj
      rw [getElem?_set_cases] at hj
      split at hj
      · simp at hj
      · exact hinv.fetching_visited j v hj
    · simpa using hinv.workers_len
    · have hcount := countP_set isInflight s.workers i _ .atLoopTop hw
      have hb := hinv.budget
      simp [isInflight] at hcount
      simp only [inflightCount] at hb ⊢
      omega
  | fetchOk i u h hw hf hne =>
    refine ⟨hinv.queue_sub, hinv.pushed_visited, hinv.pushed_nodup, hinv.visited_host,
      ?_, ?_, ?_, ?_⟩
    · intro q hq
      rcases mem_insertAssoc _ _ _ _ hq with h1 | h1
      · subst h1
        exact hinv.fetching_visited i u hw
      · exact hinv.results_keys q h1
    · intro j v hj
      rw [getElem?_set_cases] at hj
      split at hj
      · simp at hj
      · exact hinv.fetching_visited j v hj
    · simpa using hinv.workers_len
    · have hcount := countP_set isInflight s.workers i _ (.processing (cfg.extract h u)) hw
      have hpos := countP_pos_of_getElem? isInflight s.workers i _ hw (by rfl)
      have hlen := length_insertAssoc u (cfg.extract h u) s.results
      have hb := hinv.budget
      simp [isInflight] at hcount
      simp only [inflightCount] at hb hpos ⊢
      omega
  | procSkip i l rest hw hcond =>
    refine ⟨hinv.queue_sub, hinv.pushed_visited, hinv.pushed_nodup, hinv.visited_host,
      hinv.results_keys, ?_, ?_, ?_⟩
    · intro j v hj
      rw [getElem?_set_cases] at hj
      split at hj
      · simp at hj
      · exact hinv.fetching_visited j v hj
    · simpa using hinv.workers_len
    · have hcount := countP_set isInflight s.workers i _ (.processing rest) hw
      have hb := hinv.budget
      simp [isInflight] at hcount
      simp only [inflightCount] at hb ⊢
      omega
  | procPush i l rest hw hdom hnew =>
    have hlnotpushed : l ∉ s.pushedLog := fun hc => hnew (hinv.pushed_visited l hc)
    refine ⟨?_, ?_, ?_, ?_, ?_, ?_, ?_, ?_⟩
    · intro v hv
      simp only [List.mem_append, List.mem_singleton] at hv
      rcases hv with hv | hv
      · exact List.mem_append_left _ (hinv.queue_sub v hv)
      · subst hv; exact List.mem_append_right _ (by simp)
    · intro v hv
      simp only [List.mem_append, List.mem_singleton] at hv
      rcases hv with hv | hv
      · exact List.mem_cons_of_mem _ (hinv.pushed_visited v hv)
      · subst hv; exact List.mem_cons_self _ _
    · rw [List.nodup_append]
      refine ⟨hinv.pushed_nodup, by simp, ?_⟩
      intro a ha hb
      simp only [List.mem_singleton] at hb
      subst hb
      exact hlnotpushed ha
    · intro v hv
      rcases List.mem_cons.mp hv with hv | hv
      · subst hv; exact Or.inr hdom
      · exact hinv.visited_host v hv
    · intro q hq
      exact List.mem_cons_of_mem _ (hinv.results_keys q hq)
    · intro j v hj
      rw [getElem?_set_cases] at hj
      split at hj
      · simp at hj
      · exact List.mem_cons_of_mem _ (hinv.fetching_visited j v hj)
    · simpa using hinv.workers_len
    · have hcount := countP_set isInflight s.workers i _ (.processing rest) hw
      have hb := hinv.budget
      simp [isInflight] at hcount
      simp only [inflightCount] at hb ⊢
      omega
  | procDone i hw =>
    refine ⟨hinv.queue_sub, hinv.pushed_visited, hinv.pushed_nodup, hinv.visited_host,
      hinv.results_keys, ?_, ?_, ?_⟩
    · intro j v hj
      rw [getElem?_set_cases] at hj
      split at hj
      · simp at hj
      · exact hinv.fetching_visited j v hj
    · simpa using hinv.workers_len
    · have hcount := countP_set isInflight s.workers i _ .atLoopTop hw
      have hb := hinv.budget
      simp [isInflight] at hcount
      simp only [inflightCount] at hb ⊢
      omega

theorem reachable_inv {cfg : Config} {seed : String} {s : CrawlState}
    (h : Reachable cfg seed s) : CrawlInv cfg seed s := by
  induction h with
  | init => exact inv_init cfg seed
  | step _ hstep ih => exact inv_step ih hstep

/-! ## Claim C5: is_same_domain -/

theorem is_same_domain_eq_spec (url base : String) :
    is_same_domain url base = isSameHostSpec url base := by
  unfold is_same_domain isSameHostSpec
  by_cases hb : base = ""
  · simp [hb]
  · rw [if_neg hb, if_neg hb]
    rcases hp : urlparseE [] url.data with e | p
    · rfl
    · by_cases h1 : p.scheme = "http".data <;>
      by_cases h2 : p.scheme = "https".data <;>
      by_cases h3 : p.netloc = base.data <;>
      by_cases h4 : p.netloc = base.data ++ ":80".data <;>
      by_cases h5 : p.netloc = base.data ++ ":443".data <;>
      simp [h1, h2, h3, h4, h5]

/-- C5: for every url string and base netloc, is_same_domain returns
false when the base netloc is empty, the scheme is not http or https, or
the url does not parse; otherwise it returns true exactly when the
authority equals the base netloc byte-exactly, or equals the base netloc
with :80 appended under scheme http, or with :443 appended under scheme
https — in particular on http h:80/x against h it is true and on
http h:8080/x against h it is false. -/
theorem is_same_domain_matches_spec :
    (∀ url base, is_same_domain url base = isSameHostSpec url base) ∧
    is_same_domain "http://h:80/x" "h" = true ∧
    is_same_domain "http://h:8080/x" "h" = false :=
  ⟨is_same_domain_eq_spec, by decide, by decide⟩

/-! ## Claim C7: constructor validation -/

/-- C7: Crawler.__init__ raises MissingProtocolError exactly when the
base URL has no :// separator; otherwise it raises InvalidProtocolError
exactly when the lower-cased text before the first :// is not http or
https; otherwise it raises InvalidURLError exactly when the base URL
normalized against itself has an empty netloc; on success the validated
data is that normalized URL with its nonempty netloc and no crawling
work has been done. -/
theorem crawler_init_characterization (u : String) :
    (crawlerInitE u = .error .missingProtocol ↔ containsStr u "://" = false) ∧
    (crawlerInitE u = .error .unsupportedProtocol ↔ containsStr u "://" = true ∧
      ¬ SUPPORTED_PROTOCOLS.contains (⟨pyLower (splitFirstOn "://".data u.data)⟩ : String)) ∧
    (crawlerInitE u = .error .invalidURL ↔ containsStr u "://" = true ∧
      SUPPORTED_PROTOCOLS.contains (⟨pyLower (splitFirstOn "://".data u.data)⟩ : String) ∧
      get_domain_netloc (normalize_url u u) = "") ∧
    (∀ d, crawlerInitE u = .ok d →
      d.base_url = normalize_url u u ∧
      d.base_domain_netloc = get_domain_netloc (normalize_url u u) ∧
      d.base_domain_netloc ≠ "") := by
  unfold crawlerInitE
  by_cases h1 : containsStr u "://"
  · by_cases h2 : (⟨pyLower (splitFirstOn "://".data u.data)⟩ : String) ∈ SUPPORTED_PROTOCOLS
    · by_cases h3 : get_domain_netloc (normalize_url u u) = ""
      · simp [h1, h2, h3]
      · simp [h1, h2, h3]
    · simp [h1, h2]
  · simp [h1]

theorem crawler_init_characterization_witness :
    crawlerInitE "example.com" = .error .missingProtocol ∧
    crawlerInitE "ftp://x.com" = .error .unsupportedProtocol ∧
    crawlerInitE "http://" = .error .invalidURL ∧
    crawlerInitE "http://example.com" = .ok ⟨"http://example.com", "example.com"⟩ := by
  refine ⟨?_, ?_, ?_, by rfl⟩
  · exact (crawler_init_characterization "example.com").1.mpr (by decide)
  · exact (crawler_init_characterization "ftp://x.com").2.1.mpr ⟨by decide, by decide⟩
  · exact (crawler_init_characterization "http://").2.2.1.mpr ⟨by decide, by decide, by rfl⟩

/-! ## Claim C1: fetch_page and redirects -/

/-- C1 (code bug in utils.fetch_page): every return statement of
fetch_page yields the requested URL itself as the first component; the
final URL of the response after the redirect chain is never consulted,
although the docstring promises the fetched URL may differ from the
input due to redirects and the client is configured to follow
redirects.  At the failing input (a fetch whose response arrives from a
redirect target) the first component is the requested URL, not the
final one. -/
theorem fetch_page_first_component_is_input :
    (∀ (url : String) (outcome : FetchOutcome), (fetch_page url outcome).1 = url) ∧
    fetch_page "http://example.com/old"
        (.success 200 "text/html" "<p>B</p>" "http://example.com/new") =
      ("http://example.com/old", some "<p>B</p>") := by
  constructor
  · intro url outcome
    cases outcome with
    | success sc ct tx fu =>
      unfold fetch_page
      by_cases hsc : sc ∈ HTTP_SUPPORTED_SUCCESS_CODES <;>
      by_cases hct : containsStr ⟨pyLower ct.data⟩ "text/html" <;>
      simp [hsc, hct]
    | requestError => rfl
    | otherError => rfl
  · decide

/-! ## Claim C3: dedup discipline -/

/-- C3: in every reachable state of every crawl, under every worker count
and scheduling, no URL has ever been pushed to the queue twice (the push
log has no duplicates), every pushed URL is in the visited set from its
push on (the insert is atomic with the push), and the queue only holds
pushed URLs. -/
theorem crawl_no_duplicate_enqueue (cfg : Config) (seed : String) (s : CrawlState)
    (h : Reachable cfg seed s) :
    s.pushedLog.Nodup ∧ (∀ u ∈ s.pushedLog, u ∈ s.visited) ∧
    (∀ u ∈ s.queue, u ∈ s.pushedLog) :=
  ⟨(reachable_inv h).pushed_nodup, (reachable_inv h).pushed_visited,
   (reachable_inv h).queue_sub⟩

theorem crawl_no_duplicate_enqueue_witness :
    (initState "http://example.com" cfgNoSeed.numWorkers).pushedLog.Nodup :=
  (crawl_no_duplicate_enqueue cfgNoSeed "http://example.com" _ Reachable.init).1

/-! ## Claim C4: host boundary -/

/-- C4: in every reachable state of every crawl, every key of the results
map is the seed URL or passes is_same_domain against the base netloc, and
every URL ever pushed to the queue (hence every URL ever fetched) is the
seed or passes is_same_domain.  (The key recorded by the worker is the
first component returned by fetch_page, which per the source of
utils.fetch_page is always the popped URL itself.) -/
theorem crawl_host_boundary (cfg : Config) (seed : String) (s : CrawlState)
    (h : Reachable cfg seed s) :
    (∀ q ∈ s.results, q.1 = seed ∨ is_same_domain q.1 cfg.baseHost = true) ∧
    (∀ u ∈ s.pushedLog, u = seed ∨ is_same_domain u cfg.baseHost = true) :=
  ⟨fun q hq => (reachable_inv h).visited_host q.1 ((reachable_inv h).results_keys q hq),
   fun u hu => (reachable_inv h).visited_host u ((reachable_inv h).pushed_visited u hu)⟩

theorem crawl_host_boundary_witness :
    "http://example.com" = "http://example.com" ∨
    is_same_domain "http://example.com" cfgNoSeed.baseHost = true :=
  (crawl_host_boundary cfgNoSeed "http://example.com" _ Reachable.init).2
    "http://example.com" (by decide)

/-! ## Claim C9: seed fetch failure -/

theorem seedFailInv_step {cfg : Config} {seed : String} {s t : CrawlState}
    (hf : cfg.fetchHtml seed = none)
    (hinv : SeedFailInv seed s) (hstep : Step cfg s t) : SeedFailInv seed t := by
  cases hstep with
  | budgetPass i hw hres =>
    refine ⟨hinv.results_empty, hinv.visited_seed, hinv.queue_seed, ?_, ?_⟩
    · intro j u hj
      rw [getElem?_set_cases] at hj
      split at hj
      · simp at hj
      · exact hinv.fetching_seed j u hj
    · intro j l hj
      rw [getElem?_set_cases] at hj
      split at hj
      · simp at hj
      · exact hinv.no_processing j l hj
  | budgetHit i hw hres =>
    refine ⟨hinv.results_empty, hinv.visited_seed, by simp, ?_, ?_⟩
    · intro j u hj
      rw [getElem?_set_cases] at hj
      split at hj
      · simp at hj
      · exact hinv.fetching_seed j u hj
    · intro j l hj
      rw [getElem?_set_cases] at hj
      split at hj
      · simp at hj
      · exact hinv.no_processing j l hj
  | getUrl i u rest hw hq =>
    refine ⟨hinv.results_empty, hinv.visited_seed, ?_, ?_, ?_⟩
    · intro v hv
      exact hinv.queue_seed v (by simp [hq, hv])
    · intro j v hj
      rw [getElem?_set_cases] at hj
      split at hj
      · simp only [Option.some.injEq, WStatus.fetching.injEq] at hj
        subst hj
        exact hinv.queue_seed u (by simp [hq])
      · exact hinv.fetching_seed j v hj
    · intro j l hj
      rw [getElem?_set_cases] at hj
      split at hj
      · simp at hj
      · exact hinv.no_processing j l hj
  | fetchFail i u hw hf2 =>
    refine ⟨hinv.results_empty, hinv.visited_seed, hinv.queue_seed, ?_, ?_⟩
    · intro j v hj
      rw [getElem?_set_cases] at hj
      split at hj
      · simp at hj
      · exact hinv.fetching_seed j v hj
    · intro j l hj
      rw [getElem?_set_cases] at hj
      split at hj
      · simp at hj
      · exact hinv.no_processing j l hj
  | fetchOk i u h hw hf2 hne =>
    exfalso
    have hu : u = seed := hinv.fetching_seed i u hw
    rw [hu, hf] at hf2
    exact Option.noConfusion hf2
  | procSkip i l rest hw hcond =>
    exact absurd hw (hinv.no_processing i (l :: rest))
  | procPush i l rest hw hdom hnew =>
    exact absurd hw (hinv.no_processing i (l :: rest))
  | procDone i hw =>
    exact absurd hw (hinv.no_processing i [])

theorem seedFailInv_reachable {cfg : Config} {seed : String} {s : CrawlState}
    (hf : cfg.fetchHtml seed = none) (h : Reachable cfg seed s) : SeedFailInv seed s := by
  induction h with
  | init =>
    refine ⟨rfl, rfl, by simp [initState], ?_, ?_⟩
    · intro i u hw
      simp only [initState] at hw
      rcases Nat.lt_or_ge i cfg.numWorkers with hi | hi
      · rw [List.getElem?_eq_getElem (by simpa using hi)] at hw
        simp at hw
      · rw [List.getElem?_eq_none (by simpa using hi)] at hw
        simp at hw
    · intro i l hw
      simp only [initState] at hw
      rcases Nat.lt_or_ge i cfg.numWorkers with hi | hi
      · rw [List.getElem?_eq_getElem (by simpa using hi)] at hw
        simp at hw
      · rw [List.getElem?_eq_none (by simpa using hi)] at hw
        simp at hw
  | step _ hstep ih => exact seedFailInv_step hf ih hstep

/-- C9: when the fetch of the seed URL returns an absent body, every
reachable state of the crawl has an empty results map (so run() returns
the empty map, not a fault), and the drained state — the queue join
counter at zero, which releases crawl() — is reachable, witnessed by the
concrete one-worker crawl over an unresponsive site. -/
theorem crawl_seed_fetch_absent :
    (∀ (cfg : Config) (seed : String) (s : CrawlState), cfg.fetchHtml seed = none →
      Reachable cfg seed s → s.results = []) ∧
    (Reachable cfgNoSeed "http://example.com"
        ⟨[], ["http://example.com"], [], [.atLoopTop], 0, ["http://example.com"]⟩) := by
  constructor
  · intro cfg seed s hf h
    exact (seedFailInv_reachable hf h).results_empty
  · exact Reachable.step (Reachable.step (Reachable.step Reachable.init
      (Step.budgetPass _ 0 (by decide) (by decide)))
      (Step.getUrl _ 0 "http://example.com" [] (by decide) (by decide)))
      (Step.fetchFail _ 0 "http://example.com" (by decide) (Or.inl rfl))

theorem crawl_seed_fetch_absent_witness :
    cfgNoSeed.fetchHtml "http://example.com" = none ∧
    (initState "http://example.com" cfgNoSeed.numWorkers).results = [] :=
  ⟨rfl, crawl_seed_fetch_absent.1 cfgNoSeed "http://example.com" _ rfl Reachable.init⟩

/-! ## Claim C2: the page budget -/

/-- C2 counterexample: with page budget one and two workers on a
two-page site, a reachable state holds two results entries — the claim
that the results map never exceeds maxPages entries (for every
concurrency at least one) is false.  Both workers pass the budget test
while the map is still empty, and both then record a page. -/
theorem crawl_budget_overshoot_counterexample :
    Reachable cfgOver "http://example.com"
      ⟨[], ["http://example.com/p1", "http://example.com"],
       [("http://example.com", ["http://example.com/p1"]), ("http://example.com/p1", [])],
       [.processing [], .processing []], 2,
       ["http://example.com", "http://example.com/p1"]⟩ ∧
    cfgOver.maxPages <
      ([("http://example.com", ["http://example.com/p1"]),
        ("http://example.com/p1", ([] : List String))]).length ∧
    1 ≤ cfgOver.maxPages ∧ 1 ≤ cfgOver.numWorkers := by
  refine ⟨?_, by decide, by decide, by decide⟩
  have r1 : Reachable cfgOver "http://example.com"
      ⟨["http://example.com"], ["http://example.com"], [],
       [.waitingGet, .atLoopTop], 1, ["http://example.com"]⟩ :=
    Reachable.step Reachable.init (Step.budgetPass _ 0 (by decide) (by decide))
  have r2 : Reachable cfgOver "http://example.com"
      ⟨["http://example.com"], ["http://example.com"], [],
       [.waitingGet, .waitingGet], 1, ["http://example.com"]⟩ :=
    Reachable.step r1 (Step.budgetPass _ 1 (by decide) (by decide))
  have r3 : Reachable cfgOver "http://example.com"
      ⟨[], ["http://example.com"], [],
       [.fetching "http://example.com", .waitingGet], 1, ["http://example.com"]⟩ :=
    Reachable.step r2 (Step.getUrl _ 0 "http://example.com" [] (by decide) (by decide))
  have r4 : Reachable cfgOver "http://example.com"
      ⟨[], ["http://example.com"],
       [("http://example.com", ["http://example.com/p1"])],
       [.processing ["http://example.com/p1"], .waitingGet], 1, ["http://example.com"]⟩ :=
    Reachable.step r3 (Step.fetchOk _ 0 "http://example.com" "H0" (by decide) rfl (by decide))
  have r5 : Reachable cfgOver "http://example.com"
      ⟨["http://example.com/p1"],
       ["http://example.com/p1", "http://example.com"],
       [("http://example.com", ["http://example.com/p1"])],
       [.processing [], .waitingGet], 2,
       ["http://example.com", "http://example.com/p1"]⟩ :=
    Reachable.step r4 (Step.procPush _ 0 "http://example.com/p1" [] (by decide)
      (by decide) (by decide))
  have r6 : Reachable cfgOver "http://example.com"
      ⟨[], ["http://example.com/p1", "http://example.com"],
       [("http://example.com", ["http://example.com/p1"])],
       [.processing [], .fetching "http://example.com/p1"], 2,
       ["http://example.com", "http://example.com/p1"]⟩ :=
    Reachable.step r5 (Step.getUrl _ 1 "http://example.com/p1" [] (by decide) (by decide))
  exact Reachable.step r6
    (Step.fetchOk _ 1 "http://example.com/p1" "H1" (by decide) rfl (by decide))

/-- C2 amended (changed only as the counterexample forces): the results
map can overshoot the page budget by the in-flight workers, but never by
more: in every reachable state of a crawl with maxPages at least one,
len(results) is at most maxPages + concurrency - 1; with concurrency
one the original bound len(results) at most maxPages holds. -/
theorem crawl_results_soft_bound (cfg : Config) (seed : String) (s : CrawlState)
    (hmp : 1 ≤ cfg.maxPages) (h : Reachable cfg seed s) :
    s.results.length ≤ cfg.maxPages + cfg.numWorkers - 1 ∧
    (cfg.numWorkers = 1 → s.results.length ≤ cfg.maxPages) := by
  have hb := (reachable_inv h).budget
  constructor
  · omega
  · intro h1
    rw [h1] at hb
    omega

theorem crawl_results_soft_bound_witness :
    1 ≤ cfgNoSeed.maxPages ∧
    (initState "http://example.com" cfgNoSeed.numWorkers).results.length ≤
      cfgNoSeed.maxPages + cfgNoSeed.numWorkers - 1 :=
  ⟨by decide, (crawl_results_soft_bound cfgNoSeed "http://example.com" _
    (by decide) Reachable.init).1⟩

/-! ## Claim C8: extract_links -/

theorem except_bind_ok_own {α β γ : Type} (a : α) (f : α → Except γ β) :
    (Except.ok a >>= f) = f a := rfl

theorem except_bind_error_own {α β γ : Type} (e : γ) (f : α → Except γ β) :
    ((Except.error e : Except γ α) >>= f) = Except.error e := rfl

theorem processHref_out (base : String) (links out : List String) (h0 : String)
    (h : processHref base links h0 = .ok out) :
    ∀ l ∈ out, l ∈ links ∨ supportedSchemeB l = true := by
  unfold processHref at h
  split at h
  · injection h with h
    subst h
    exact fun l hl => Or.inl hl
  · split at h
    · exact Except.noConfusion h
    · rename_i ph hph
      split at h
      · injection h with h
        subst h
        exact fun l hl => Or.inl hl
      · split at h
        · split at h
          · exact Except.noConfusion h
          · rename_i pn hpn
            split at h
            · rename_i hsup
              injection h with h
              subst h
              intro l hl
              by_cases hc : links.contains (normalize_url (pyStrip h0) base)
              · rw [if_pos hc] at hl
                exact Or.inl hl
              · rw [if_neg hc] at hl
                rcases List.mem_append.mp hl with h1 | h1
                · exact Or.inl h1
                · right
                  rw [List.mem_singleton] at h1
                  subst h1
                  unfold supportedSchemeB
                  rw [hpn]
                  exact hsup
            · injection h with h
              subst h
              exact fun l hl => Or.inl hl
        · injection h with h
          subst h
          exact fun l hl => Or.inl hl

theorem foldlM_processHref_out (base : String) :
    ∀ (hrefs links out : List String),
      hrefs.foldlM (processHref base) links = .ok out →
      ∀ l ∈ out, l ∈ links ∨ supportedSchemeB l = true := by
  intro hrefs
  induction hrefs with
  | nil =>
    intro links out h l hl
    simp only [List.foldlM_nil] at h
    injection h with h
    subst h
    exact Or.inl hl
  | cons a t ih =>
    intro links out h l hl
    rw [List.foldlM_cons] at h
    cases hstep : processHref base links a with
    | error e =>
      rw [hstep, except_bind_error_own] at h
      exact Except.noConfusion h
    | ok links2 =>
      rw [hstep, except_bind_ok_own] at h
      rcases ih links2 out h l hl with h1 | h1
      · rcases processHref_out base links links2 a hstep l h1 with h2 | h2
        · exact Or.inl h2
        · exact Or.inr h2
      · exact Or.inr h1

/-- C8: extract_links never raises (it is a total function of the
document parse outcome); an empty document or a document whose parse
raises yields the empty set, never partial results (a ValueError from
urlparse on any single href likewise aborts the whole extraction to the
empty set, since the per-anchor loop has no handler of its own); an
empty, fragment-only or javascript: href never contributes; an href
whose explicit scheme is not http or https never contributes; and every
returned link parses with scheme http or https (the post-normalization
check). -/
theorem extract_links_filtering :
    (∀ (F : String → Except Unit (List String)) (base : String),
      extract_links F "" base = []) ∧
    (∀ (F : String → Except Unit (List String)) (html base : String),
      F html = .error () → extract_links F html base = []) ∧
    (∀ (base : String) (links : List String) (h0 : String),
      (pyStrip h0 = "" ∨ strStartsWith (pyStrip h0) "#" ∨ strStartsWith (pyStrip h0) "javascript:") →
      processHref base links h0 = .ok links) ∧
    (∀ (base : String) (links : List String) (h0 : String) (p : ParseResult),
      urlparseE [] (pyStrip h0).data = .ok p → p.scheme ≠ [] →
      ¬ SUPPORTED_PROTOCOLS.contains (⟨pyLower p.scheme⟩ : String) →
      processHref base links h0 = .ok links) ∧
    (∀ (F : String → Except Unit (List String)) (html base : String),
      ∀ l ∈ extract_links F html base, supportedSchemeB l = true) := by
  refine ⟨?_, ?_, ?_, ?_, ?_⟩
  · intro F base
    rfl
  · intro F html base hF
    unfold extract_links
    split
    · rfl
    · rw [hF]
      rfl
  · intro base links h0 hskip
    unfold processHref
    rw [if_pos hskip]
  · intro base links h0 p hp hne hns
    unfold processHref
    split
    · rfl
    · simp only [hp]
      rw [if_pos ⟨hne, hns⟩]
  · intro F html base l hl
    unfold extract_links at hl
    split at hl
    · simp at hl
    · split at hl
      · simp at hl
      · rename_i res hres
        cases hF : F html with
        | error e =>
          rw [hF, except_bind_error_own] at hres
          exact Except.noConfusion hres
        | ok hrefs =>
          rw [hF, except_bind_ok_own] at hres
          rcases foldlM_processHref_out base hrefs [] res hres l hl with h1 | h1
          · simp at h1
          · exact h1

theorem extract_links_filtering_witness :
    extract_links (fun _ => .error ()) "<p>x</p>" "http://h" = [] ∧
    processHref "http://h" [] "#frag" = .ok [] ∧
    processHref "http://h" [] "mailto:x@y.com" = .ok [] ∧
    supportedSchemeB "http://h/a" = true := by
  refine ⟨?_, ?_, ?_, ?_⟩
  · exact extract_links_filtering.2.1 (fun _ => .error ()) "<p>x</p>" "http://h" rfl
  · exact extract_links_filtering.2.2.1 "http://h" [] "#frag" (by decide)
  · exact extract_links_filtering.2.2.2.1 "http://h" [] "mailto:x@y.com"
      ⟨"mailto".data, [], "x@y.com".data, [], [], []⟩ (by rfl) (by decide) (by decide)
  · exact extract_links_filtering.2.2.2.2 (fun _ => .ok ["/a"]) "<p>x</p>" "http://h"
      "http://h/a" (by decide)

/-! ## Claim C6: normalize_url -/

theorem pyLowerChar_eq_hash {c : Char} (h : pyLowerChar c = '#') : c = '#' := by
  unfold pyLowerChar at h
  split at h
  · exfalso
    rename_i hin
    have hv : (Char.ofNat (c.toNat + 32)).toNat = c.toNat + 32 := by
      unfold Char.ofNat
      rw [dif_pos (Or.inl (by omega))]
      rfl
    rw [h] at hv
    have h35 : ('#').toNat = 35 := rfl
    omega
  · exact h

theorem hexDig_ne_hash (n : Nat) : hexDig n ≠ '#' := by
  unfold hexDig
  rw [List.getD_eq_getElem?_getD]
  rcases hn : "0123456789ABCDEF".data[n]? with _ | c
  · intro hc
    simp at hc
  · have hm : c ∈ "0123456789ABCDEF".data := mem_of_getElem?_own hn
    intro hc
    simp only [Option.getD_some] at hc
    subst hc
    revert hm
    decide

theorem escape_foldr_mem {bs : List Nat} {acc : List Char} {x : Char}
    (hx : x ∈ bs.foldr (fun b a => '%' :: hexDig (b / 16) :: hexDig (b % 16) :: a) acc) :
    x ∈ acc ∨ x = '%' ∨ ∃ m, x = hexDig m := by
  induction bs with
  | nil => exact Or.inl hx
  | cons b t ih =>
    simp only [List.foldr_cons, List.mem_cons] at hx
    rcases hx with hx | hx | hx | hx
    · exact Or.inr (Or.inl hx)
    · exact Or.inr (Or.inr ⟨b / 16, hx⟩)
    · exact Or.inr (Or.inr ⟨b % 16, hx⟩)
    · exact ih hx

theorem quoteChar_ne_hash {c x : Char} (hx : x ∈ quoteChar c) : x ≠ '#' := by
  unfold quoteChar at hx
  split at hx
  · rename_i hsafe
    rw [List.mem_singleton] at hx
    subst hx
    intro hc
    subst hc
    exact absurd hsafe (by decide)
  · rcases escape_foldr_mem hx with h1 | h1 | ⟨m, h1⟩
    · simp at h1
    · subst h1; decide
    · subst h1; exact hexDig_ne_hash m

theorem hash_not_mem_pyQuote (l : List Char) : '#' ∉ pyQuote l := by
  induction l with
  | nil => simp [pyQuote]
  | cons c t ih =>
    intro hc
    simp only [pyQuote, List.foldr_cons] at hc
    rcases List.mem_append.mp hc with h1 | h1
    · exact quoteChar_ne_hash h1 rfl
    · exact ih h1

theorem schemeSplit_fst_no_hash (dflt l : List Char) (hd : ∀ c ∈ dflt, c ≠ '#') :
    ∀ c ∈ (schemeSplit dflt l).1, c ≠ '#' := by
  simp only [schemeSplit]
  split
  · rename_i hcond
    intro c hc
    rcases List.mem_map.mp hc with ⟨a, ha, hla⟩
    intro hchash
    subst hchash
    have ha2 : a ∈ l.takeWhile (· ≠ ':') := ha
    have hsch : isSchemeChar a = true :=
      List.all_eq_true.mp hcond.2.2.2 a (by simpa using ha2)
    have : a = '#' := pyLowerChar_eq_hash hla
    subst this
    exact absurd hsch (by decide)
  · exact hd

theorem urlsplitE_ok_no_hash (dflt url : List Char) (r : SplitResult)
    (hd : ∀ c ∈ dflt, c ≠ '#') (h : urlsplitE dflt url = .ok r) :
    (∀ c ∈ r.scheme, c ≠ '#') ∧ (∀ c ∈ r.netloc, c ≠ '#') ∧
    (∀ c ∈ r.path, c ≠ '#') ∧ (∀ c ∈ r.query, c ≠ '#') := by
  simp only [urlsplitE] at h
  split at h
  · split at h
    · exact Except.noConfusion h
    · injection h with h
      subst h
      refine ⟨schemeSplit_fst_no_hash dflt _ hd, ?_, ?_, ?_⟩
      · intro c hc
        have hp := List.mem_takeWhile_imp hc
        intro hchash
        subst hchash
        simp [isNetlocDelim] at hp
      · intro c hc
        have hc3 := (List.takeWhile_sublist _).subset hc
        have h4 := List.mem_takeWhile_imp hc3
        simpa using h4
      · intro c hc
        have hc2 := List.drop_subset 1 _ hc
        have hc3 := (List.dropWhile_sublist _).subset hc2
        have h4 := List.mem_takeWhile_imp hc3
        simpa using h4
  · split at h
    · exact Except.noConfusion h
    · injection h with h
      subst h
      refine ⟨schemeSplit_fst_no_hash dflt _ hd, ?_, ?_, ?_⟩
      · intro c hc
        simp at hc
      · intro c hc
        have hc3 := (List.takeWhile_sublist _).subset hc
        have h4 := List.mem_takeWhile_imp hc3
        simpa using h4
      · intro c hc
        have hc2 := List.drop_subset 1 _ hc
        have hc3 := (List.dropWhile_sublist _).subset hc2
        have h4 := List.mem_takeWhile_imp hc3
        simpa using h4

theorem splitParams_fst_subset (path : List Char) :
    ∀ c ∈ (splitParams path).1, c ∈ path := by
  intro c hc
  simp only [splitParams] at hc
  split at hc <;> split at hc <;>
    first
      | exact List.take_subset _ _ hc
      | exact hc

theorem urlparseE_ok_no_hash (dflt url : List Char) (q : ParseResult)
    (hd : ∀ c ∈ dflt, c ≠ '#') (h : urlparseE dflt url = .ok q) :
    (∀ c ∈ q.scheme, c ≠ '#') ∧ (∀ c ∈ q.netloc, c ≠ '#') ∧
    (∀ c ∈ q.path, c ≠ '#') ∧ (∀ c ∈ q.query, c ≠ '#') := by
  unfold urlparseE at h
  cases hs : urlsplitE dflt url with
  | error e =>
    rw [hs, except_bind_error_own] at h
    exact Except.noConfusion h
  | ok s =>
    rw [hs, except_bind_ok_own] at h
    obtain ⟨h1, h2, h3, h4⟩ := urlsplitE_ok_no_hash dflt url s hd hs
    split at h
    · injection h with h
      subst h
      exact ⟨h1, h2, fun c hc => h3 c (splitParams_fst_subset s.path c hc), h4⟩
    · injection h with h
      subst h
      exact ⟨h1, h2, h3, h4⟩

theorem rebuildUrl_no_hash (p : ParseResult)
    (h1 : ∀ c ∈ p.scheme, c ≠ '#') (h2 : ∀ c ∈ p.netloc, c ≠ '#')
    (h4 : ∀ c ∈ p.query, c ≠ '#') : '#' ∉ (rebuildUrl p).data := by
  intro hc
  have hc2 : '#' ∈ p.scheme ++ ':' :: '/' :: '/' :: (p.netloc ++ pyQuote p.path ++
      (if p.query ≠ [] then '?' :: p.query else [])) := hc
  simp only [List.mem_append, List.mem_cons] at hc2
  rcases hc2 with h | h | h | h | (h | h) | h
  · exact h1 '#' h rfl
  · exact absurd h (by decide)
  · exact absurd h (by decide)
  · exact absurd h (by decide)
  · exact h2 '#' h rfl
  · exact hash_not_mem_pyQuote p.path h
  · by_cases hq : p.query ≠ []
    · rw [if_pos hq] at h
      rcases List.mem_cons.mp h with h5 | h5
      · exact absurd h5 (by decide)
      · exact h4 '#' h5 rfl
    · rw [if_neg hq] at h
      simp at h

theorem normalizeParse_no_hash (abs_url : List Char) :
    '#' ∉ (normalizeParse abs_url).data := by
  unfold normalizeParse
  cases hp : urlparseE [] abs_url with
  | error e => simp
  | ok p =>
    obtain ⟨h1, h2, h3, h4⟩ := urlparseE_ok_no_hash [] abs_url p (by simp) hp
    exact rebuildUrl_no_hash p h1 h2 h4

theorem normalize_url_no_hash (u b : String) : '#' ∉ (normalize_url u b).data := by
  unfold normalize_url
  cases hj : urljoinE b.data (pyStrip u).data with
  | error e => simp
  | ok abs_url => exact normalizeParse_no_hash abs_url

/-- C6 counterexample: normalize_url does not require a scheme to be
present after resolution — resolving abc against the scheme-less base
def yields the malformed string ://abc, not the empty string the claim
demands. -/
theorem normalize_url_no_scheme_counterexample :
    normalize_url "abc" "def" = "://abc" ∧ ("://abc" : String) ≠ "" :=
  ⟨by decide, by decide⟩

/-- C6 amended (changed only as the counterexample forces): normalize_url
never raises (it is total); it returns the empty string when resolving
the inputs raises a ValueError (in urljoin, or in the re-parse of the
resolved URL); its output never contains a fragment separator; on a
successful parse the output is exactly the scheme, the :// separator,
the netloc, the percent-quoted path and the query verbatim — but a
missing scheme is NOT turned into the empty string: the output then
starts with :// as in normalize_url abc def = ://abc. -/
theorem normalize_url_amended :
    (∀ (u b : String) (e : Unit),
      urljoinE b.data (pyStrip u).data = .error e → normalize_url u b = "") ∧
    (∀ (u b : String) (abs_url : List Char) (e : Unit),
      urljoinE b.data (pyStrip u).data = .ok abs_url →
      urlparseE [] abs_url = .error e → normalize_url u b = "") ∧
    (∀ u b : String, '#' ∉ (normalize_url u b).data) ∧
    (∀ (u b : String) (abs_url : List Char) (p : ParseResult),
      urljoinE b.data (pyStrip u).data = .ok abs_url → urlparseE [] abs_url = .ok p →
      normalize_url u b = rebuildUrl p) ∧
    normalize_url "abc" "def" = "://abc" := by
  refine ⟨?_, ?_, normalize_url_no_hash, ?_, by decide⟩
  · intro u b e hj
    unfold normalize_url
    rw [hj]
  · intro u b abs_url e hj hp
    unfold normalize_url
    rw [hj]
    show normalizeParse abs_url = ""
    unfold normalizeParse
    rw [hp]
  · intro u b abs_url p hj hp
    unfold normalize_url
    rw [hj]
    show normalizeParse abs_url = rebuildUrl p
    unfold normalizeParse
    rw [hp]

theorem normalize_url_amended_witness :
    urljoinE ("http://[::1" : String).data (pyStrip "x").data = .error () ∧
    normalize_url "x" "http://[::1" = "" ∧
    '#' ∉ (normalize_url "p#frag" "http://h/").data ∧
    normalize_url "p#frag" "http://h/" = "http://h/p" :=
  ⟨rfl, normalize_url_amended.1 "x" "http://[::1" () rfl,
   normalize_url_amended.2.2.1 "p#frag" "http://h/", by decide⟩

/-! ## Claim C10: the default-port equivalence is one-directional -/

theorem takeWhile_append_length_le (p : Char → Bool) (a b : List Char) :
    (List.takeWhile p (a ++ b)).length ≤ a.length + (List.takeWhile p b).length := by
  induction a with
  | nil => simp
  | cons c t ih =>
    rw [List.cons_append, List.takeWhile_cons]
    split
    · simp only [List.length_cons]
      omega
    · simp

theorem schemeSplit_http (rest : List Char) :
    schemeSplit [] ('h' :: 't' :: 't' :: 'p' :: ':' :: rest) = ("http".data, rest) := by
  have hpre : List.takeWhile (· ≠ ':') ('h' :: 't' :: 't' :: 'p' :: ':' :: rest) =
      ['h', 't', 't', 'p'] := by
    simp [List.takeWhile_cons]
  simp only [schemeSplit, hpre]
  have hcond : (['h', 't', 't', 'p'] : List Char).length <
        ('h' :: 't' :: 't' :: 'p' :: ':' :: rest).length ∧
      (['h', 't', 't', 'p'] : List Char) ≠ [] ∧
      ((['h', 't', 't', 'p'] : List Char).headD ' ').isAlpha = true ∧
      (['h', 't', 't', 'p'] : List Char).all isSchemeChar = true := by
    refine ⟨by simp, by decide, by decide, by decide⟩
  rw [if_pos hcond]
  rfl

theorem rmUnsafe_http_slash (hs : List Char) :
    rmUnsafe ("http://".data ++ hs ++ "/x".data) =
      'h' :: 't' :: 't' :: 'p' :: ':' :: '/' :: '/' :: (rmUnsafe hs ++ "/x".data) := by
  unfold rmUnsafe
  rw [List.filter_append, List.filter_append]
  have h1 : List.filter (fun c => ¬(c = '\t' ∨ c = '\r' ∨ c = '\n')) "http://".data =
      "http://".data := by decide
  have h2 : List.filter (fun c => ¬(c = '\t' ∨ c = '\r' ∨ c = '\n')) "/x".data =
      "/x".data := by decide
  rw [h1, h2, List.append_assoc,
    show "http://".data = ['h', 't', 't', 'p', ':', '/', '/'] from by decide]
  rfl

theorem urlsplitE_ok_cases (dflt url : List Char) (r : SplitResult)
    (h : urlsplitE dflt url = .ok r) :
    r.scheme = (schemeSplit dflt (rmUnsafe url)).1 ∧
    (((schemeSplit dflt (rmUnsafe url)).2.take 2 = ['/', '/'] ∧
        r.netloc = ((schemeSplit dflt (rmUnsafe url)).2.drop 2).takeWhile
          (fun c => ¬ isNetlocDelim c)) ∨
      ((schemeSplit dflt (rmUnsafe url)).2.take 2 ≠ ['/', '/'] ∧ r.netloc = [])) := by
  simp only [urlsplitE] at h
  split at h
  · rename_i htake
    split at h
    · exact Except.noConfusion h
    · injection h with h
      subst h
      exact ⟨rfl, Or.inl ⟨htake, rfl⟩⟩
  · rename_i htake
    split at h
    · exact Except.noConfusion h
    · injection h with h
      subst h
      exact ⟨rfl, Or.inr ⟨htake, rfl⟩⟩

theorem urlsplit_http_slash (hs : List Char) (r : SplitResult)
    (hr : urlsplitE [] ("http://".data ++ hs ++ "/x".data) = .ok r) :
    r.scheme = "http".data ∧ r.netloc.length ≤ hs.length := by
  obtain ⟨hsc, hnet⟩ := urlsplitE_ok_cases [] _ r hr
  rw [rmUnsafe_http_slash, schemeSplit_http] at hsc hnet
  refine ⟨hsc, ?_⟩
  rcases hnet with ⟨htake, hnet⟩ | ⟨htake, hnet⟩
  · have h2 : r.netloc =
        (rmUnsafe hs ++ "/x".data).takeWhile (fun c => ¬ isNetlocDelim c) := hnet
    rw [h2]
    have hb : (List.takeWhile (fun c => ¬ isNetlocDelim c) "/x".data).length = 0 := by
      decide
    have hle := takeWhile_append_length_le (fun c => ¬ isNetlocDelim c) (rmUnsafe hs) "/x".data
    have hf : (rmUnsafe hs).length ≤ hs.length := List.length_filter_le _ _
    omega
  · exact absurd rfl htake

theorem urlparse_http_slash (hs : List Char) (q : ParseResult)
    (hq : urlparseE [] ("http://".data ++ hs ++ "/x".data) = .ok q) :
    q.scheme = "http".data ∧ q.netloc.length ≤ hs.length := by
  unfold urlparseE at hq
  cases hr : urlsplitE [] ("http://".data ++ hs ++ "/x".data) with
  | error e =>
    rw [hr, except_bind_error_own] at hq
    exact Except.noConfusion hq
  | ok s =>
    rw [hr, except_bind_ok_own] at hq
    obtain ⟨hsc, hnl⟩ := urlsplit_http_slash hs s hr
    split at hq <;> (injection hq with hq; subst hq; exact ⟨hsc, hnl⟩)

/-- C10: the default-port equivalence of is_same_domain only recognises
an explicit :80 in the url argument, never in the base netloc: for
every host string h, checking http h /x against the base netloc h:80
returns false, because the parsed authority of the url is at most as
long as h while the comparisons append :80 to the base. -/
theorem is_same_domain_port_base_false (h : String) :
    is_same_domain ("http://" ++ h ++ "/x") (h ++ ":80") = false := by
  have hb : ¬ (h ++ ":80" = "") := by
    intro hc
    have hlen := congrArg String.length hc
    rw [String.length_append] at hlen
    have h80 : (":80" : String).length = 3 := rfl
    have hz : ("" : String).length = 0 := rfl
    omega
  unfold is_same_domain
  rw [if_neg hb]
  have hdata : ("http://" ++ h ++ "/x").data = "http://".data ++ h.data ++ "/x".data := rfl
  rw [hdata]
  cases hp : urlparseE [] ("http://".data ++ h.data ++ "/x".data) with
  | error e => rfl
  | ok p =>
    obtain ⟨hsc, hnl⟩ := urlparse_http_slash h.data p hp
    have hbdata : (h ++ ":80").data = h.data ++ ":80".data := rfl
    show (if ¬(p.scheme = "http".data ∨ p.scheme = "https".data) then false
      else if (p.netloc = (h ++ ":80").data ++ ":80".data ∧ p.scheme = "http".data) ∨
          (p.netloc = (h ++ ":80").data ++ ":443".data ∧ p.scheme = "https".data) then true
      else decide (p.netloc = (h ++ ":80").data)) = false
    have hne80 : ¬ (p.netloc = (h ++ ":80").data ++ ":80".data) := by
      intro hc
      have hlc := congrArg List.length hc
      rw [hbdata, List.length_append, List.length_append] at hlc
      have h80 : (":80" : String).data.length = 3 := rfl
      rw [h80] at hlc
      omega
    have hne443 : ¬ (p.netloc = (h ++ ":80").data ++ ":443".data) := by
      intro hc
      have hlc := congrArg List.length hc
      rw [hbdata, List.length_append, List.length_append] at hlc
      have h80 : (":80" : String).data.length = 3 := rfl
      have h443 : (":443" : String).data.length = 4 := rfl
      rw [h80, h443] at hlc
      omega
    have hnebase : ¬ (p.netloc = (h ++ ":80").data) := by
      intro hc
      have hlc := congrArg List.length hc
      rw [hbdata, List.length_append] at hlc
      have h80 : (":80" : String).data.length = 3 := rfl
      rw [h80] at hlc
      omega
    rw [if_neg (not_not_intro (Or.inl hsc))]
    rw [if_neg ?hcond]
    case hcond =>
      intro hc
      rcases hc with ⟨hc, _⟩ | ⟨hc, _⟩
      · exact hne80 hc
      · exact hne443 hc
    exact decide_eq_false hnebase

end CrawlerApp
